import Mathlib

/-!
Shallow embedding of the core of `terabox.py` (a download-relay bot):
the token lifecycle (`generate_uuid`, `activate_token`, `has_valid_token`),
the link validator (`is_valid_url` over Python's `urlparse` netloc
extraction), the split decision of `handle_upload`, the split plan of
`split_video`, the cleanup orchestration of `split_and_upload` and
`cleanup`, and the `/start` handler's activation gate.

Timestamps are modelled as integer seconds (`datetime.now()` becomes an
`Int` parameter `now`; `timedelta(hours=12)` becomes `12 * 3600`).
Media durations, which Python holds as floats, are modelled as rationals:
every operation performed on them here (division by a part count,
multiplication by an index) matches the spec's real-valued reading.
-/

namespace Terabox

/-! ### Constants (terabox.py lines 25-34) -/

def VALID_DOMAINS : List String :=
  [ "terabox.com", "nephobox.com", "4funbox.com", "mirrobox.com",
    "momerybox.com", "teraboxapp.com", "1024tera.com",
    "terabox.app", "gibibox.com", "goaibox.com", "terasharelink.com",
    "teraboxlink.com", "terafileshare.com" ]

def DEFAULT_SPLIT_SIZE : Nat := 2 * 1024 ^ 3

def VIP_SPLIT_SIZE : Nat := 4 * 1024 ^ 3

def TOKEN_EXPIRY_HOURS : Nat := 12

/-! ### Token store (terabox.py lines 137-158)

The MongoDB collection `user_requests` is modelled as a list of
documents.  `update_one` touches the first document matching its filter;
`find_one` returns the first document matching its filter; an upsert
inserts when nothing matched.  `modified_count` counts a matched document
only when the update actually changed it, which is how
`activate_token` decides its boolean result. -/

structure UserDoc where
  user_id : Int
  token : String
  token_status : String
  token_expiry : Option Int
  deriving DecidableEq, Repr

/-- `generate_uuid` (lines 137-144): upsert on filter `{user_id}` setting
`token`, `token_status := "inactive"`, `token_expiry := None`.  The fresh
`str(uuid.uuid4())` value is a parameter. -/
def generate_uuid (u : Int) (fresh : String) : List UserDoc → List UserDoc
  | [] => [⟨u, fresh, "inactive", none⟩]
  | d :: ds =>
    if d.user_id = u then
      { d with token := fresh, token_status := "inactive", token_expiry := none } :: ds
    else
      d :: generate_uuid u fresh ds

/-- `activate_token` (lines 146-152): `update_one` on filter
`{user_id, token}` setting `token_status := "active"` and
`token_expiry := now + 12h`; returns `modified_count > 0`. -/
def activate_token (u : Int) (t : String) (now : Int) :
    List UserDoc → List UserDoc × Bool
  | [] => ([], false)
  | d :: ds =>
    if d.user_id = u ∧ d.token = t then
      let d2 : UserDoc :=
        { d with token_status := "active",
                 token_expiry := some (now + (TOKEN_EXPIRY_HOURS : Int) * 3600) }
      (d2 :: ds, decide (d2 ≠ d))
    else
      let r := activate_token u t now ds
      (d :: r.1, r.2)

/-- `find_one({"user_id": user_id})`: first document for the user. -/
def find_one_user (db : List UserDoc) (u : Int) : Option UserDoc :=
  db.find? (fun d => d.user_id == u)

/-- `has_valid_token` (lines 154-158).  When the stored record is
`active` the code compares `datetime.now() < user_data.get("token_expiry",
datetime.min)`; if `token_expiry` is the stored value `None` that
comparison raises `TypeError`, modelled as `Except.error ()`.  The
function reads the store and never writes it. -/
def has_valid_token (db : List UserDoc) (u : Int) (now : Int) : Except Unit Bool :=
  match find_one_user db u with
  | some d =>
    if d.token_status = "active" then
      match d.token_expiry with
      | some e => .ok (decide (now < e))
      | none => .error ()
    else
      .ok false
  | none => .ok false

/-- The store operations a client can drive, for reachability claims:
token issuance, activation, and the read-only validity check. -/
inductive TokenOp where
  | issue (u : Int) (fresh : String)
  | activate (u : Int) (t : String) (now : Int)
  | validate (u : Int) (now : Int)
  deriving DecidableEq, Repr

/-- Effect of one operation on the store (`validate` never writes). -/
def applyOp (db : List UserDoc) : TokenOp → List UserDoc
  | .issue u fresh => generate_uuid u fresh db
  | .activate u t now => (activate_token u t now db).1
  | .validate _ _ => db

/-- Store reached from the empty collection by a sequence of operations. -/
def runOps (ops : List TokenOp) : List UserDoc :=
  ops.foldl applyOp []

/-! ### Split decision (terabox.py lines 306-314) -/

/-- `handle_upload`: `split_size = VIP_SPLIT_SIZE if user_client else
DEFAULT_SPLIT_SIZE`. -/
def split_size (hasUserClient : Bool) : Nat :=
  if hasUserClient then VIP_SPLIT_SIZE else DEFAULT_SPLIT_SIZE

/-- `handle_upload`: the branch condition `file_size > split_size`. -/
def needsSplit (fileSize : Nat) (hasUserClient : Bool) : Bool :=
  decide (fileSize > split_size hasUserClient)

/-- Modelled from the spec: `needsSplit(artifactSizeBytes,
destinationCeiling)` where the "destination ceiling" is 4GB if an
elevated-privilege upload channel is configured, else 2GB. -/
def destinationCeiling (hasUserClient : Bool) : Nat :=
  if hasUserClient then 4 * 1024 ^ 3 else 2 * 1024 ^ 3

/-! ### `/start` handler activation gate (terabox.py lines 228-242) -/

inductive StartAction where
  | activateAttempt (t : String)
  | plainStart
  deriving DecidableEq, Repr

/-- The branch taken by `start_handler`: the activation path runs only
when `len(message.command) > 1 and len(message.command[1]) == 36`
(`message.command[0]` is the command word itself, `"start"`);
otherwise the issuance/status path runs. -/
def startAction (cmd : List String) : StartAction :=
  match cmd with
  | _ :: arg :: _ => if arg.length = 36 then .activateAttempt arg else .plainStart
  | _ => .plainStart

/-! ### `split_video` (terabox.py lines 374-404)

`os.path.splitext` and the part-file naming `f"{root}.part{i+1:03d}{ext}"`
are modelled character-for-character.  `math.ceil(file_size /
DEFAULT_SPLIT_SIZE)` divides by `2^31`, which binary floating point
performs exactly for any realistic size (below `2^53` bytes), so the
part count is ceiling division on naturals. -/

/-- Index of the last occurrence of `c`, if any (Python `str.rfind`). -/
def rfindIdx (c : Char) : List Char → Option Nat
  | [] => none
  | x :: xs =>
    match rfindIdx c xs with
    | some i => some (i + 1)
    | none => if x = c then some 0 else none

/-- Python `rfind` result as an integer, `-1` when absent. -/
def idxInt : Option Nat → Int
  | some i => (i : Int)
  | none => -1

/-- `os.path.splitext` for POSIX paths: split at the last dot of the
basename, unless every character of the basename up to that dot is
itself a dot (leading-dot names keep their dots). -/
def splitext (p : String) : String × String :=
  let cs := p.data
  match rfindIdx '.' cs with
  | none => (p, "")
  | some dI =>
    let sI := idxInt (rfindIdx '/' cs)
    if sI < (dI : Int) then
      let between := (cs.take dI).drop (sI + 1).toNat
      if between.any (fun ch => ch != '.') then
        (String.mk (cs.take dI), String.mk (cs.drop dI))
      else (p, "")
    else (p, "")

/-- Python `f"{n:03d}"`: decimal digits left-padded with zeros to
width 3. -/
def pad3 (n : Nat) : String :=
  let s := toString n
  String.mk (List.replicate (3 - s.length) '0') ++ s

/-- Name of the `i`-th part (0-based index `i` in the loop, suffix
`i+1`): `f"{splitext(input)[0]}.part{i+1:03d}{splitext(input)[1]}"`. -/
def partName (input : String) (i : Nat) : String :=
  (splitext input).1 ++ ".part" ++ pad3 (i + 1) ++ (splitext input).2

/-- `parts = math.ceil(file_size / DEFAULT_SPLIT_SIZE)` — the divisor is
the hard-coded `DEFAULT_SPLIT_SIZE`, not a parameter. -/
def partsFor (fileSize : Nat) : Nat :=
  (fileSize + DEFAULT_SPLIT_SIZE - 1) / DEFAULT_SPLIT_SIZE

/-- One ffmpeg invocation of the split loop: output path, `-ss` start
offset, `-t` length. -/
structure SplitCmd where
  output : String
  start : ℚ
  len : ℚ
  deriving DecidableEq, Repr

/-- The sequence of ffmpeg invocations `split_video` issues for a file
of the given size and probed duration: `duration_per_part =
total_duration / parts`, part `i` starting at `i * duration_per_part`. -/
def splitPlan (input : String) (fileSize : Nat) (totalDuration : ℚ) : List SplitCmd :=
  let parts := partsFor fileSize
  let dpp := totalDuration / (parts : ℚ)
  (List.range parts).map (fun i => ⟨partName input i, (i : ℚ) * dpp, dpp⟩)

/-- Exceptions `split_video` can raise (all re-raised after logging). -/
inductive SplitErr where
  | probeErr
  | zeroDivErr
  | spawnErr
  deriving DecidableEq, Repr

/-- Failure environment for one `split_video` call.  `probeDuration =
none` models the ffprobe pipeline or the `float(...)` parse raising;
`spawnFails` holds loop indices at which `create_subprocess_exec`
raises; `exitFails` holds loop indices at which ffmpeg starts but exits
with a failure status — `await proc.wait()`'s return value is discarded
by the code (line 398), so these are invisible to it. -/
structure SplitWorld where
  probeDuration : Option ℚ
  fileSize : Nat
  spawnFails : List Nat
  exitFails : List Nat
  deriving Repr

/-- The per-part loop: raise on a spawn failure, otherwise append the
part path unconditionally (exit statuses are never consulted). -/
def goParts (input : String) (spawnFails : List Nat) : List Nat → Except SplitErr (List String)
  | [] => .ok []
  | i :: is =>
    if spawnFails.contains i then .error .spawnErr
    else (goParts input spawnFails is).map (fun l => partName input i :: l)

/-- `split_video` control flow: probe, part count (a zero part count
would make `total_duration / parts` raise `ZeroDivisionError`), then
the per-part loop; the returned list is the full name list when no
spawn fails. -/
def split_video_run (w : SplitWorld) (input : String) : Except SplitErr (List String) :=
  match w.probeDuration with
  | none => .error .probeErr
  | some _ =>
    let parts := partsFor w.fileSize
    if parts = 0 then .error .zeroDivErr
    else goParts input w.spawnFails (List.range parts)

/-! ### `split_and_upload` (terabox.py lines 316-323) and
`safe_remove` (lines 406-410) -/

/-- Errors that can escape `split_and_upload`. -/
inductive PipeErr where
  | nameErr
  | uploadErr
  deriving DecidableEq, Repr

/-- Environment of one `split_and_upload` call: the outcome of
`split_video` (on error, the part files it had already written to disk
before raising; on success, the returned list, all on disk), and the
set of parts whose `upload_file` call lets an exception escape (its
internal handler can itself raise, e.g. from the failure-message
edit). -/
structure UploadWorld where
  splitResult : Except (List String) (List String)
  uploadRaisesOn : List String
  deriving Repr

/-- Result: the on-disk paths afterwards and the escaping error. -/
structure PipeResult where
  disk : List String
  err : Option PipeErr
  deriving Repr

/-- `split_and_upload`: `split_files` is assigned only when
`split_video` returns; if `split_video` raises, the `finally` block's
`for part in split_files` reads an unbound local and raises
`NameError`, which replaces the original exception and removes
nothing.  When the split succeeded, the `finally` runs
`safe_remove(part)` for every returned part — `safe_remove` swallows
its own errors — whether or not the upload loop reached them. -/
def split_and_upload (disk0 : List String) (w : UploadWorld) : PipeResult :=
  match w.splitResult with
  | .error produced => ⟨disk0 ++ produced, some .nameErr⟩
  | .ok parts =>
    let aborted := parts.any (fun p => w.uploadRaisesOn.contains p)
    let disk2 := (disk0 ++ parts).filter (fun p => ! parts.contains p)
    ⟨disk2, if aborted then some .uploadErr else none⟩

/-! ### `cleanup` (terabox.py lines 412-419) -/

/-- Which of the three cleanup actions fail when attempted, and whether
the fetched artifact is still on disk. -/
structure CleanupWorld where
  statusDeleteOk : Bool
  originalDeleteOk : Bool
  artifactPresent : Bool
  removeOk : Bool
  deriving DecidableEq, Repr

/-- Observable trace of one `cleanup` call: which actions were reached
("attempting" the third action means reaching its existence check), and
whether an exception escapes the function. -/
structure CleanupTrace where
  statusAttempted : Bool
  originalAttempted : Bool
  removeAttempted : Bool
  raised : Bool
  deriving DecidableEq, Repr

/-- `cleanup`: the three actions run sequentially inside a single
`try`; the first failure jumps to the `except`, which logs and does not
re-raise, so later actions are skipped but nothing escapes. -/
def cleanup (w : CleanupWorld) : CleanupTrace :=
  if !w.statusDeleteOk then ⟨true, false, false, false⟩
  else if !w.originalDeleteOk then ⟨true, true, false, false⟩
  else ⟨true, true, true, false⟩

/-! ### `is_valid_url` (terabox.py lines 160-162)

`urllib.parse.urlparse` netloc extraction, following CPython: strip the
tab/CR/LF bytes, strip a well-formed `scheme:`, take the authority only
after a literal `//`, and raise `ValueError("Invalid IPv6 URL")` when
the authority has unbalanced square brackets. -/

def isSchemeChar (c : Char) : Bool :=
  c.isAlpha || c.isDigit || c == '+' || c == '-' || c == '.'

/-- Index of the first colon (Python `url.find(':')`). -/
def findColon : List Char → Option Nat
  | [] => none
  | c :: cs => if c = ':' then some 0 else (findColon cs).map (· + 1)

/-- Drop `scheme:` when the first colon is preceded by a nonempty run
of scheme characters starting with an ASCII letter. -/
def stripScheme (cs : List Char) : List Char :=
  match findColon cs with
  | none => cs
  | some i =>
    if 0 < i ∧ (cs.headD ' ').isAlpha ∧ (cs.take i).all isSchemeChar then
      cs.drop (i + 1)
    else cs

/-- The netloc of a URL, or an error for the `Invalid IPv6 URL`
`ValueError`.  Without a leading `//` after the scheme the netloc is
the empty string. -/
def netlocOf (url : String) : Except Unit String :=
  let cs := (url.data.filter (fun c => c != '\t' && c != '\r' && c != '\n'))
  match stripScheme cs with
  | '/' :: '/' :: rest =>
    let nl := rest.takeWhile (fun c => c != '/' && c != '?' && c != '#')
    if nl.contains '[' != nl.contains ']' then .error ()
    else .ok (String.mk nl)
  | _ => .ok ""

/-- Python `str.endswith`. -/
def str_endswith (s suffix : String) : Bool :=
  suffix.data.isSuffixOf s.data

/-- `is_valid_url`: `any(urlparse(url).netloc.endswith(domain) for
domain in VALID_DOMAINS)`; a parse error propagates. -/
def is_valid_url (url : String) : Except Unit Bool :=
  (netlocOf url).map (fun h => VALID_DOMAINS.any (fun d => str_endswith h d))

/-- Modelled from the spec: the host is an allow-listed domain itself
(a "bare hostname") or a subdomain of one. -/
def specHostAllowed (host : String) : Bool :=
  VALID_DOMAINS.any (fun d => host == d || str_endswith host ("." ++ d))

/-! ### Token store lemmas -/

/-- A store record that is `active` carries an expiry timestamp. -/
def storeWF (db : List UserDoc) : Prop :=
  ∀ d ∈ db, d.token_status = "active" → d.token_expiry ≠ none

theorem activate_token_no_match (u : Int) (t : String) (now : Int) (db : List UserDoc)
    (h : ∀ d ∈ db, ¬ (d.user_id = u ∧ d.token = t)) :
    activate_token u t now db = (db, false) := by
  induction db with
  | nil => rfl
  | cons d ds ih =>
    have hd := h d (List.mem_cons_self d ds)
    have ht := ih (fun x hx => h x (List.mem_cons_of_mem d hx))
    simp only [activate_token, if_neg hd, ht]

theorem activate_token_success_matched (u : Int) (t : String) (now : Int)
    (db : List UserDoc) (hs : (activate_token u t now db).2 = true) :
    ∃ d ∈ db, d.user_id = u ∧ d.token = t := by
  induction db with
  | nil => simp [activate_token] at hs
  | cons d ds ih =>
    by_cases hd : d.user_id = u ∧ d.token = t
    · exact ⟨d, List.mem_cons_self d ds, hd⟩
    · simp only [activate_token, if_neg hd] at hs
      obtain ⟨x, hx, hxm⟩ := ih hs
      exact ⟨x, List.mem_cons_of_mem d hx, hxm⟩

theorem activate_token_success_record (u : Int) (t : String) (now : Int)
    (db : List UserDoc) (hnd : (db.map (fun d => d.user_id)).Nodup)
    (hs : (activate_token u t now db).2 = true) :
    find_one_user (activate_token u t now db).1 u =
      some ⟨u, t, "active", some (now + (TOKEN_EXPIRY_HOURS : Int) * 3600)⟩ := by
  induction db with
  | nil => simp [activate_token] at hs
  | cons d ds ih =>
    simp only [List.map_cons, List.nodup_cons] at hnd
    by_cases hd : d.user_id = u ∧ d.token = t
    · obtain ⟨du, dt, dst, dexp⟩ := d
      obtain ⟨h1, h2⟩ := hd
      subst h1
      subst h2
      simp [activate_token, find_one_user]
    · simp only [activate_token, if_neg hd] at hs ⊢
      have hrec := ih hnd.2 hs
      have hdu : d.user_id ≠ u := by
        intro hEq
        obtain ⟨x, hx, hxu, _⟩ := activate_token_success_matched u t now ds hs
        apply hnd.1
        rw [hEq, ← hxu]
        exact List.mem_map_of_mem (fun d => d.user_id) hx
      simp only [find_one_user] at hrec ⊢
      rw [List.find?_cons_of_neg _ (by simp [hdu])]
      exact hrec

theorem activate_token_other_user (u : Int) (t : String) (now : Int)
    (db : List UserDoc) (v : Int) (hv : v ≠ u) :
    find_one_user (activate_token u t now db).1 v = find_one_user db v := by
  induction db with
  | nil => rfl
  | cons d ds ih =>
    by_cases hd : d.user_id = u ∧ d.token = t
    · have hdv : d.user_id ≠ v := by rw [hd.1]; exact fun h => hv h.symm
      simp only [activate_token, if_pos hd, find_one_user]
      rw [List.find?_cons_of_neg _ (by simp [hdv]),
        List.find?_cons_of_neg _ (by simp [hdv])]
    · simp only [activate_token, if_neg hd, find_one_user] at ih ⊢
      by_cases hdv : d.user_id = v
      · rw [List.find?_cons_of_pos _ (by simp [hdv]),
          List.find?_cons_of_pos _ (by simp [hdv])]
      · rw [List.find?_cons_of_neg _ (by simp [hdv]),
          List.find?_cons_of_neg _ (by simp [hdv])]
        exact ih

theorem has_valid_token_of_wf (db : List UserDoc) (u : Int) (now : Int)
    (hwf : storeWF db) :
    ∃ b, has_valid_token db u now = .ok b ∧
      (b = true ↔ ∃ d, find_one_user db u = some d ∧ d.token_status = "active" ∧
        ∃ e, d.token_expiry = some e ∧ now < e) := by
  rcases hfind : find_one_user db u with _ | d
  · exact ⟨false, by simp [has_valid_token, hfind], by simp⟩
  · have hmem : d ∈ db := List.mem_of_find?_eq_some hfind
    by_cases hst : d.token_status = "active"
    · rcases hexp : d.token_expiry with _ | e
      · exact absurd hexp (hwf d hmem hst)
      · exact ⟨decide (now < e), by simp [has_valid_token, hfind, hst, hexp],
          by simp [hst, hexp]⟩
    · exact ⟨false, by simp [has_valid_token, hfind, hst], by simp [hst]⟩

theorem storeWF_generate (u : Int) (fresh : String) (db : List UserDoc)
    (hwf : storeWF db) : storeWF (generate_uuid u fresh db) := by
  induction db with
  | nil =>
    rintro d hd hst
    simp only [generate_uuid, List.mem_singleton] at hd
    subst hd
    simp at hst
  | cons d ds ih =>
    by_cases hd : d.user_id = u
    · rintro x hx hst
      simp only [generate_uuid, if_pos hd, List.mem_cons] at hx
      rcases hx with hx | hx
      · subst hx; simp at hst
      · exact hwf x (List.mem_cons_of_mem d hx) hst
    · rintro x hx hst
      simp only [generate_uuid, if_neg hd, List.mem_cons] at hx
      rcases hx with hx | hx
      · subst hx; exact hwf x (List.mem_cons_self x ds) hst
      · exact ih (fun y hy => hwf y (List.mem_cons_of_mem d hy)) x hx hst

theorem storeWF_activate (u : Int) (t : String) (now : Int) (db : List UserDoc)
    (hwf : storeWF db) : storeWF (activate_token u t now db).1 := by
  induction db with
  | nil =>
    rintro d hd
    simp [activate_token] at hd
  | cons d ds ih =>
    by_cases hd : d.user_id = u ∧ d.token = t
    · rintro x hx hst
      simp only [activate_token, if_pos hd, List.mem_cons] at hx
      rcases hx with hx | hx
      · subst hx; simp
      · exact hwf x (List.mem_cons_of_mem d hx) hst
    · rintro x hx hst
      simp only [activate_token, if_neg hd, List.mem_cons] at hx
      rcases hx with hx | hx
      · subst hx; exact hwf x (List.mem_cons_self x ds) hst
      · exact ih (fun y hy => hwf y (List.mem_cons_of_mem d hy)) x hx hst

theorem storeWF_foldl (ops : List TokenOp) (db : List UserDoc) (hwf : storeWF db) :
    storeWF (ops.foldl applyOp db) := by
  induction ops generalizing db with
  | nil => exact hwf
  | cons op ops ih =>
    refine ih (applyOp db op) ?_
    cases op with
    | issue u fresh => exact storeWF_generate u fresh db hwf
    | activate u t now => exact storeWF_activate u t now db hwf
    | validate u now => exact hwf

theorem storeWF_runOps (ops : List TokenOp) : storeWF (runOps ops) :=
  storeWF_foldl ops [] (fun d hd => absurd hd (List.not_mem_nil d))

/-! ### Claim theorems -/

/-- C4: for a store with at most one record per user, `activate_token`
returns true only when a stored record matches both the user identity
and the presented token; on success that user's record becomes
`active` with expiry `now + 12h`; when nothing matches (stale token,
wrong token, or another user's exact token string) the store is
untouched and the call returns false, never an error; and a call by
user `u` never alters what any other user's lookup sees. -/
theorem activate_token_correct (db : List UserDoc) (u : Int) (t : String) (now : Int)
    (hnd : (db.map (fun d => d.user_id)).Nodup) :
    ((activate_token u t now db).2 = true → ∃ d ∈ db, d.user_id = u ∧ d.token = t) ∧
    ((activate_token u t now db).2 = true →
      find_one_user (activate_token u t now db).1 u =
        some ⟨u, t, "active", some (now + (TOKEN_EXPIRY_HOURS : Int) * 3600)⟩) ∧
    ((∀ d ∈ db, ¬ (d.user_id = u ∧ d.token = t)) → activate_token u t now db = (db, false)) ∧
    (∀ v, v ≠ u → find_one_user (activate_token u t now db).1 v = find_one_user db v) :=
  ⟨activate_token_success_matched u t now db,
   activate_token_success_record u t now db hnd,
   activate_token_no_match u t now db,
   fun v hv => activate_token_other_user u t now db v hv⟩

/-- C4 witness: activating the stored token of user 7 succeeds and
leaves the record active with the 12-hour expiry. -/
theorem activate_token_correct_witness :
    find_one_user (activate_token 7 "tok" 0 [⟨7, "tok", "inactive", none⟩]).1 7 =
      some ⟨7, "tok", "active", some (0 + (TOKEN_EXPIRY_HOURS : Int) * 3600)⟩ :=
  (activate_token_correct [⟨7, "tok", "inactive", none⟩] 7 "tok" 0 (by decide)).2.1
    (by decide)

/-- C5: on any store satisfying the active-implies-expiry invariant,
`has_valid_token` returns a boolean (no `TypeError`), and that boolean
is true exactly when the user's record exists, is `active`, and its
expiry is strictly later than `now`; a past expiry yields false even
when the status is `active`.  The function is a pure read: it takes
the store and returns only a boolean. -/
theorem has_valid_token_correct (db : List UserDoc) (u : Int) (now : Int)
    (hwf : ∀ d ∈ db, d.token_status = "active" → d.token_expiry ≠ none) :
    ∃ b, has_valid_token db u now = .ok b ∧
      (b = true ↔ ∃ d, find_one_user db u = some d ∧ d.token_status = "active" ∧
        ∃ e, d.token_expiry = some e ∧ now < e) :=
  has_valid_token_of_wf db u now hwf

/-- C5 witness: an `active` record whose expiry (100) is before `now`
(150) makes the check return false; with `now` = 50 it returns true. -/
theorem has_valid_token_correct_witness :
    has_valid_token [⟨1, "t", "active", some 100⟩] 1 150 = .ok false ∧
    has_valid_token [⟨1, "t", "active", some 100⟩] 1 50 = .ok true := by
  constructor
  · obtain ⟨b, hb, hiff⟩ :=
      has_valid_token_correct [⟨1, "t", "active", some 100⟩] 1 150 (by decide)
    have hbf : b = false := by
      cases hcb : b
      · rfl
      · obtain ⟨d, hd, _, e, he, hlt⟩ := hiff.mp hcb
        have hde : (⟨1, "t", "active", some 100⟩ : UserDoc) = d := by
          simpa [find_one_user] using hd
        rw [← hde] at he
        simp only [Option.some.injEq] at he
        omega
    rw [hbf] at hb
    exact hb
  · obtain ⟨b, hb, hiff⟩ :=
      has_valid_token_correct [⟨1, "t", "active", some 100⟩] 1 50 (by decide)
    have hbt : b = true :=
      hiff.mpr ⟨⟨1, "t", "active", some 100⟩, by decide, by decide, 100, rfl, by decide⟩
    rw [hbt] at hb
    exact hb

/-- C9: every store reachable from the empty collection through issue,
activate and validate operations keeps expiry timestamps on all
`active` records, so `has_valid_token` never reaches the
`None`-comparison `TypeError` on a reachable store: it always returns
a boolean. -/
theorem reachable_store_invariant (ops : List TokenOp) :
    (∀ d ∈ runOps ops, d.token_status = "active" → d.token_expiry ≠ none) ∧
    (∀ u now, ∃ b, has_valid_token (runOps ops) u now = .ok b) := by
  refine ⟨storeWF_runOps ops, fun u now => ?_⟩
  obtain ⟨b, hb, _⟩ := has_valid_token_of_wf (runOps ops) u now (storeWF_runOps ops)
  exact ⟨b, hb⟩

/-- C9 witness: after issuing and activating a token for user 1, the
record's expiry is present, as the invariant demands. -/
theorem reachable_store_invariant_witness :
    (⟨1, "t", "active", some 43200⟩ : UserDoc).token_expiry ≠ none :=
  (reachable_store_invariant [.issue 1 "t", .activate 1 "t" 0]).1
    ⟨1, "t", "active", some 43200⟩ (by decide) (by decide)

/-- C10: `start_handler` takes the activation branch exactly when the
command carries an argument of exactly 36 characters: any activation
attempt's token is that argument and has 36 characters, while a
command whose argument has any other length, or that has no argument
at all, takes the plain issuance/status branch. -/
theorem startAction_gate (cmd : List String) :
    (∀ t, startAction cmd = .activateAttempt t →
      ∃ c rest, cmd = c :: t :: rest ∧ t.length = 36) ∧
    (∀ c arg rest, cmd = c :: arg :: rest →
      (arg.length = 36 → startAction cmd = .activateAttempt arg) ∧
      (arg.length ≠ 36 → startAction cmd = .plainStart)) ∧
    (∀ c, cmd = [c] → startAction cmd = .plainStart) ∧
    (cmd = [] → startAction cmd = .plainStart) := by
  refine ⟨?_, ?_, ?_, ?_⟩
  · intro t ht
    match cmd, ht with
    | c :: arg :: rest, ht =>
      by_cases h36 : arg.length = 36
      · simp only [startAction, if_pos h36, StartAction.activateAttempt.injEq] at ht
        exact ⟨c, rest, by rw [ht], ht ▸ h36⟩
      · simp [startAction, if_neg h36] at ht
    | [c], ht => simp [startAction] at ht
    | [], ht => simp [startAction] at ht
  · rintro c arg rest rfl
    constructor
    · intro h36
      simp [startAction, if_pos h36]
    · intro h36
      simp [startAction, if_neg h36]
  · rintro c rfl
    rfl
  · rintro rfl
    rfl

/-- C10 witness: a 36-character argument triggers the activation
attempt with that argument; a 5-character argument does not. -/
theorem startAction_gate_witness :
    startAction ["/start", "abcdefabcdefabcdefabcdefabcdefabcdef"] =
      .activateAttempt "abcdefabcdefabcdefabcdefabcdefabcdef" ∧
    startAction ["/start", "short"] = .plainStart :=
  ⟨((startAction_gate ["/start", "abcdefabcdefabcdefabcdefabcdefabcdef"]).2.1
      "/start" "abcdefabcdefabcdefabcdefabcdefabcdef" [] rfl).1 (by decide),
   ((startAction_gate ["/start", "short"]).2.1 "/start" "short" [] rfl).2 (by decide)⟩

/-- C1 counterexample: when deleting the status message fails, the
original-message deletion and the artifact removal are never attempted
(all three actions sit in one `try` block), refuting the claim that a
failure of one action does not prevent attempting the others. -/
theorem cleanup_not_independent :
    (cleanup ⟨false, true, true, true⟩).originalAttempted = false ∧
    (cleanup ⟨false, true, true, true⟩).removeAttempted = false := by
  decide

/-- C1 amended: `cleanup` attempts the three actions sequentially
inside a single error scope: the status-message deletion is always
attempted, the original-message deletion only if the first action
succeeded, and the artifact removal only if both earlier actions
succeeded; no failure is ever raised to the caller. -/
theorem cleanup_sequential_swallowing (w : CleanupWorld) :
    (cleanup w).raised = false ∧
    (cleanup w).statusAttempted = true ∧
    (cleanup w).originalAttempted = w.statusDeleteOk ∧
    (cleanup w).removeAttempted = (w.statusDeleteOk && w.originalDeleteOk) := by
  obtain ⟨a, b, c, d⟩ := w
  cases a <;> cases b <;> cases c <;> cases d <;> decide

/-- C2 counterexample: when `split_video` raises after writing one part
file, the `finally` block reads the unbound `split_files` and raises a
`NameError` (a new error escaping the cleanup scope), and the produced
part file stays on disk. -/
theorem split_and_upload_cex :
    (split_and_upload [] ⟨.error ["v.part001.mp4"], []⟩).disk = ["v.part001.mp4"] ∧
    (split_and_upload [] ⟨.error ["v.part001.mp4"], []⟩).err = some .nameErr :=
  ⟨rfl, rfl⟩

/-- C2 amended: when the split step succeeds, every returned part file
is removed from disk after the upload sequence finishes or aborts
early — including parts the loop never reached — and the cleanup scope
raises no new error; but when the split step itself fails, the cleanup
scope raises a `NameError` that replaces the original failure and the
parts already produced remain on disk. -/
theorem split_and_upload_cleanup (disk0 : List String) (w : UploadWorld)
    (parts produced : List String) :
    (w.splitResult = .ok parts →
      (∀ p ∈ parts, (split_and_upload disk0 w).disk.contains p = false) ∧
      (split_and_upload disk0 w).err ≠ some .nameErr) ∧
    (w.splitResult = .error produced →
      (split_and_upload disk0 w).err = some .nameErr ∧
      ∀ p ∈ produced, (split_and_upload disk0 w).disk.contains p = true) := by
  constructor
  · intro hok
    simp only [split_and_upload, hok]
    constructor
    · intro p hp
      rw [Bool.eq_false_iff]
      intro hc
      have hmemf : p ∈ (disk0 ++ parts).filter (fun q => ! parts.contains q) :=
        List.elem_iff.mp hc
      have hkeep := (List.mem_filter.mp hmemf).2
      have hc2 : parts.contains p = true := List.elem_iff.mpr hp
      rw [hc2] at hkeep
      exact Bool.false_ne_true hkeep
    · dsimp only
      split <;> simp
  · intro herr
    constructor
    · simp [split_and_upload, herr]
    · intro p hp
      have : p ∈ disk0 ++ produced := List.mem_append_right disk0 hp
      simp [split_and_upload, herr, List.elem_iff, this]

/-- C2 witness: with parts `["a", "b"]` returned by the split and the
upload of `"a"` aborting the loop, part `"b"` — never reached by the
loop — is still removed, and no `NameError` escapes. -/
theorem split_and_upload_cleanup_witness :
    (split_and_upload [] ⟨.ok ["a", "b"], ["a"]⟩).disk.contains "b" = false ∧
    (split_and_upload [] ⟨.ok ["a", "b"], ["a"]⟩).err ≠ some .nameErr :=
  ⟨((split_and_upload_cleanup [] ⟨.ok ["a", "b"], ["a"]⟩ ["a", "b"] []).1 rfl).1 "b"
      (by decide),
   ((split_and_upload_cleanup [] ⟨.ok ["a", "b"], ["a"]⟩ ["a", "b"] []).1 rfl).2⟩

/-- C3 counterexample: with the probe succeeding and the very first
ffmpeg stream-copy invocation failing (exiting with a nonzero status,
index 0 in `exitFails`), `split_video` still returns the full
three-part list for a 5GB file — the exit status of `await proc.wait()`
is discarded, so a failed part invocation aborts nothing. -/
theorem split_video_ignores_exit_status :
    split_video_run ⟨some 100, 5 * 1024 ^ 3, [], [0]⟩ "video.mp4" =
      .ok ["video.part001.mp4", "video.part002.mp4", "video.part003.mp4"] := rfl

theorem goParts_ok (input : String) (sf : List Nat) (l : List Nat)
    (h : ∀ i ∈ l, sf.contains i = false) :
    goParts input sf l = .ok (l.map (partName input)) := by
  induction l with
  | nil => rfl
  | cons i is ih =>
    have hci : sf.contains i = false := h i (List.mem_cons_self i is)
    simp only [goParts]
    rw [if_neg (by rw [hci]; exact Bool.false_ne_true),
      ih (fun j hj => h j (List.mem_cons_of_mem i hj))]
    rfl

theorem goParts_err (input : String) (sf : List Nat) (l : List Nat)
    (h : ∃ i ∈ l, sf.contains i = true) :
    goParts input sf l = .error .spawnErr := by
  induction l with
  | nil =>
    obtain ⟨i, hi, -⟩ := h
    exact absurd hi (List.not_mem_nil i)
  | cons i is ih =>
    by_cases hc : sf.contains i = true
    · simp only [goParts]
      rw [if_pos hc]
    · obtain ⟨j, hj, hcj⟩ := h
      rcases List.mem_cons.mp hj with rfl | hj2
      · exact absurd hcj hc
      · simp only [goParts]
        rw [if_neg hc, ih ⟨j, hj2, hcj⟩]
        rfl

/-- C3 amended: a probe failure aborts the split with an error, and so
does a failure to spawn any per-part ffmpeg process (in which case no
part list is returned at all); but an ffmpeg invocation that starts
and exits with a failure status is invisible — the result is the same
for every value of `exitFails`, and with no spawn failure the full
part list is returned regardless of exit statuses. -/
theorem split_video_abort_behavior (w : SplitWorld) (input : String) :
    (w.probeDuration = none → split_video_run w input = .error .probeErr) ∧
    (w.probeDuration ≠ none → 0 < partsFor w.fileSize →
      (∀ i < partsFor w.fileSize, w.spawnFails.contains i = false) →
      split_video_run w input =
        .ok ((List.range (partsFor w.fileSize)).map (partName input))) ∧
    (w.probeDuration ≠ none → 0 < partsFor w.fileSize →
      (∃ i < partsFor w.fileSize, w.spawnFails.contains i = true) →
      split_video_run w input = .error .spawnErr) ∧
    (∀ e, split_video_run ⟨w.probeDuration, w.fileSize, w.spawnFails, e⟩ input =
      split_video_run w input) := by
  refine ⟨?_, ?_, ?_, ?_⟩
  · intro h
    simp [split_video_run, h]
  · intro hprobe hpos hno
    rcases hpd : w.probeDuration with _ | d
    · exact absurd hpd hprobe
    · simp only [split_video_run, hpd]
      rw [if_neg hpos.ne']
      exact goParts_ok input w.spawnFails (List.range (partsFor w.fileSize))
        (fun i hi => hno i (List.mem_range.mp hi))
  · intro hprobe hpos hbad
    rcases hpd : w.probeDuration with _ | d
    · exact absurd hpd hprobe
    · simp only [split_video_run, hpd]
      rw [if_neg hpos.ne']
      obtain ⟨i, hi, hci⟩ := hbad
      exact goParts_err input w.spawnFails (List.range (partsFor w.fileSize))
        ⟨i, List.mem_range.mpr hi, hci⟩
  · intro e
    obtain ⟨pd, fs, sf, ef⟩ := w
    rfl

/-- C3 witness: a successful probe with no spawn failures on a 5GB
file returns the full three-part list. -/
theorem split_video_abort_behavior_witness :
    split_video_run ⟨some 60, 5 * 1024 ^ 3, [], []⟩ "v.mp4" =
      .ok ((List.range (partsFor (5 * 1024 ^ 3))).map (partName "v.mp4")) :=
  (split_video_abort_behavior ⟨some 60, 5 * 1024 ^ 3, [], []⟩ "v.mp4").2.1
    (by simp) (by decide) (by decide)

/-- C6: the split decision of `handle_upload` is true exactly when the
artifact size strictly exceeds the ceiling — false at the ceiling,
true one byte above it — and the ceiling is 4GB with the
elevated-privilege user client configured, 2GB without. -/
theorem needsSplit_correct (s : Nat) (vip : Bool) :
    (needsSplit s vip = true ↔ destinationCeiling vip < s) ∧
    needsSplit (destinationCeiling vip) vip = false ∧
    needsSplit (destinationCeiling vip + 1) vip = true ∧
    destinationCeiling true = 4 * 1024 ^ 3 ∧
    destinationCeiling false = 2 * 1024 ^ 3 := by
  have hsz : split_size vip = destinationCeiling vip := by
    cases vip <;> rfl
  refine ⟨by simp [needsSplit, hsz], ?_, ?_, rfl, rfl⟩
  · simp [needsSplit, hsz]
  · simp [needsSplit, hsz]

/-- C7 counterexample: with the elevated-privilege client configured,
the effective destination ceiling is 4GB (`VIP_SPLIT_SIZE`), so a 5GB
file enters the split path and the claim predicts
`ceil(5GB / 4GB) = 2` parts; `split_video` divides by the hard-coded
2GB (`DEFAULT_SPLIT_SIZE`) and produces 3 parts instead. -/
theorem splitPlan_ignores_vip_ceiling :
    needsSplit (5 * 1024 ^ 3) true = true ∧
    (5 * 1024 ^ 3) ⌈/⌉ VIP_SPLIT_SIZE = 2 ∧
    partsFor (5 * 1024 ^ 3) = 3 ∧
    (splitPlan "video.mp4" (5 * 1024 ^ 3) 60).length = 3 := by
  refine ⟨by decide, by decide, by decide, ?_⟩
  simp [splitPlan, partsFor, DEFAULT_SPLIT_SIZE]

/-- C7 amended: the split always uses the 2GB `DEFAULT_SPLIT_SIZE` as
its target part size, regardless of the effective destination ceiling.
With that `T`, for every file of positive size `S` and probed duration
`D` it plans exactly `ceil(S / T)` parts, in order, the `i`-th (from 0)
named by inserting `.part` and the zero-padded 3-digit suffix `i+1`
before the original extension, starting at offset `i * (D / parts)`
with length `D / parts`, and the part lengths sum to `D`. -/
theorem splitPlan_correct (input : String) (S : Nat) (D : ℚ) (hS : 0 < S) :
    partsFor S = S ⌈/⌉ DEFAULT_SPLIT_SIZE ∧
    (splitPlan input S D).length = partsFor S ∧
    (∀ (i : Nat) (h : i < (splitPlan input S D).length),
      (splitPlan input S D)[i] =
        ⟨partName input i, (i : ℚ) * (D / (partsFor S : ℚ)), D / (partsFor S : ℚ)⟩) ∧
    (∀ i, partName input i =
      (splitext input).1 ++ ".part" ++ pad3 (i + 1) ++ (splitext input).2) ∧
    ((splitPlan input S D).map (fun c => c.len)).sum = D := by
  have hD : 0 < DEFAULT_SPLIT_SIZE := by norm_num [DEFAULT_SPLIT_SIZE]
  have hpos : 0 < partsFor S := by
    unfold partsFor
    exact Nat.div_pos (by omega) hD
  have hne : ((partsFor S : ℚ)) ≠ 0 := Nat.cast_ne_zero.mpr hpos.ne'
  refine ⟨(Nat.ceilDiv_eq_add_pred_div S DEFAULT_SPLIT_SIZE).symm,
    by simp [splitPlan], ?_, fun i => rfl, ?_⟩
  · intro i h
    simp [splitPlan, List.getElem_map, List.getElem_range]
  · simp only [splitPlan, List.map_map]
    have hcomp : ((fun c : SplitCmd => c.len) ∘
        (fun i : Nat => (⟨partName input i, (i : ℚ) * (D / (partsFor S : ℚ)),
          D / (partsFor S : ℚ)⟩ : SplitCmd))) =
        (fun _ : Nat => D / (partsFor S : ℚ)) := rfl
    rw [hcomp, List.map_const', List.length_range, List.sum_replicate, nsmul_eq_mul]
    field_simp

/-- C7 witness: a 5GB file with probed duration 60 yields a 3-part
plan whose lengths sum back to the probed duration. -/
theorem splitPlan_correct_witness :
    (splitPlan "v.mp4" (5 * 1024 ^ 3) 60).length = partsFor (5 * 1024 ^ 3) ∧
    ((splitPlan "v.mp4" (5 * 1024 ^ 3) 60).map (fun c => c.len)).sum = 60 :=
  ⟨(splitPlan_correct "v.mp4" (5 * 1024 ^ 3) 60 (by decide)).2.1,
   (splitPlan_correct "v.mp4" (5 * 1024 ^ 3) 60 (by decide)).2.2.2.2⟩

/-- C8 counterexample: `is_valid_url` accepts
`https://evilterabox.com/x`, whose host `evilterabox.com` is neither
an allow-listed domain nor a subdomain of one (the code's suffix match
needs no dot boundary), refuting the claim that every input other than
the allow-listed hosts and their subdomains is rejected. -/
theorem is_valid_url_overaccepts :
    is_valid_url "https://evilterabox.com/x" = .ok true ∧
    netlocOf "https://evilterabox.com/x" = .ok "evilterabox.com" ∧
    specHostAllowed "evilterabox.com" = false :=
  ⟨rfl, rfl, rfl⟩

theorem str_endswith_of_specAllowed (h : String) (hspec : specHostAllowed h = true) :
    VALID_DOMAINS.any (fun d => str_endswith h d) = true := by
  simp only [specHostAllowed, List.any_eq_true] at hspec
  obtain ⟨d, hd, hcase⟩ := hspec
  simp only [Bool.or_eq_true] at hcase
  refine List.any_eq_true.mpr ⟨d, hd, ?_⟩
  rcases hcase with hEq | hsuf
  · have hhd : h = d := by simpa using hEq
    subst hhd
    simp [str_endswith, List.isSuffixOf_iff_suffix]
  · simp only [str_endswith, List.isSuffixOf_iff_suffix] at hsuf ⊢
    refine List.IsSuffix.trans ?_ hsuf
    rw [String.data_append]
    exact List.suffix_append _ _

/-- C8 amended: whenever the URL parses, `is_valid_url` returns a
boolean that is true exactly when some allow-listed domain is a plain
string suffix of the parsed host — so allow-listed hosts and their
subdomains are accepted, but so is any other host merely ending in an
allow-listed domain; and when the authority component has unbalanced
square brackets, the underlying parse raises (`Invalid IPv6 URL`)
instead of returning false. -/
theorem is_valid_url_characterization (url : String) :
    (∀ h, netlocOf url = .ok h →
      is_valid_url url = .ok (VALID_DOMAINS.any (fun d => str_endswith h d)) ∧
      (specHostAllowed h = true → is_valid_url url = .ok true)) ∧
    (netlocOf url = .error () → is_valid_url url = .error ()) := by
  constructor
  · intro h hok
    have hmap : is_valid_url url = .ok (VALID_DOMAINS.any (fun d => str_endswith h d)) := by
      simp [is_valid_url, hok, Except.map]
    refine ⟨hmap, fun hspec => ?_⟩
    rw [hmap, str_endswith_of_specAllowed h hspec]
  · intro herr
    simp [is_valid_url, herr, Except.map]

/-- C8 witness: `www.terabox.com` is a subdomain of an allow-listed
domain and the validator accepts its URL. -/
theorem is_valid_url_characterization_witness :
    is_valid_url "https://www.terabox.com/s/abc" = .ok true :=
  ((is_valid_url_characterization "https://www.terabox.com/s/abc").1
    "www.terabox.com" rfl).2 rfl

end Terabox
